import Mathlib

/-!
Verification of the block header core (`block/header.go`).

Bytes are modelled as natural numbers taken modulo 256 where Go uses
`uint8`; byte slices and 32-byte hashes are `List Nat`; `uint32`
arithmetic is `Nat` with explicit `% 2 ^ 32`.  The RLP codec, the
cryptographic hash function and the ECDSA recovery routine live outside
this package, so they appear as parameters of the operations that call
them.
-/

/-- A byte value, as Go `uint8`: reduced modulo 256. -/
def byteVal (n : Nat) : Nat := n % 256

/-- Big-endian 32-bit read of the first 4 bytes of a byte sequence,
as `binary.BigEndian.Uint32(hash[:4])`. -/
def beUint32 (bs : List Nat) : Nat :=
  match bs with
  | b0 :: b1 :: b2 :: b3 :: _ =>
      byteVal b0 * 2 ^ 24 + byteVal b1 * 2 ^ 16 + byteVal b2 * 2 ^ 8 + byteVal b3
  | _ => 0

/-- Big-endian 4-byte encoding of a 32-bit number, as
`binary.BigEndian.PutUint32`. -/
def beBytes32 (n : Nat) : List Nat :=
  [n / 2 ^ 24 % 256, n / 2 ^ 16 % 256, n / 2 ^ 8 % 256, n % 256]

/-- Overwrite the first 4 bytes of a byte sequence with the big-endian
encoding of `n`, as `binary.BigEndian.PutUint32(hash[:4], n)` does in place. -/
def putUint32BE (n : Nat) (bs : List Nat) : List Nat :=
  beBytes32 n ++ bs.drop 4

/-- The all-zero 32-byte hash `cry.Hash{}`, the genesis sentinel. -/
def zero32 : List Nat := List.replicate 32 0

/-- `headerContent`: the canonical payload of a header
(struct `headerContent` in the source). -/
structure headerContent where
  ParentHash : List Nat
  Timestamp : Nat
  TotalScore : Nat
  GasLimit : Nat
  GasUsed : Nat
  Beneficiary : List Nat
  TxsRoot : List Nat
  StateRoot : List Nat
  ReceiptsRoot : List Nat
  Signature : List Nat
deriving DecidableEq

/-- The memoization cells of a `Header` (`cache` field in the source). -/
structure HeaderCache where
  hash : Option (List Nat)
  signer : Option (List Nat)
deriving DecidableEq

/-- `Header`: immutable content plus lazily filled caches. -/
structure Header where
  content : headerContent
  cache : HeaderCache
deriving DecidableEq

/-- Free function `Number`: extract the block number from the first
4 bytes of a block hash (big endian). -/
def Number (hash : List Nat) : Nat := beUint32 hash

/-- Body of `Header.Number`, on the parent hash alone: 0 for the genesis
sentinel, otherwise the parent's embedded number plus one, in `uint32`
arithmetic (the Go increment is unchecked 32-bit addition). -/
def numberFromParent (ph : List Nat) : Nat :=
  if ph = zero32 then 0
  else (Number ph + 1) % 2 ^ 32

/-- `Header.Number`: sequential number of the block, inferred from the
parent hash. -/
def Header.Number (h : Header) : Nat :=
  numberFromParent h.content.ParentHash

/-- Modelled from the spec: the external canonical codec plus the
cryptographic hash (packages `rlp` and `cry`, outside this core) appear
as the parameters `enc` (canonical byte encoding of a content) and `F`
(32-byte digest over bytes).  The digest of the full content, before the
number overwrite: `rlp.Encode(hw, h)` followed by `hw.Sum`. -/
def fullDigest (F : List Nat → List Nat) (enc : headerContent → List Nat)
    (c : headerContent) : List Nat :=
  F (enc c)

/-- The hash value `Header.Hash` computes on a cache miss: the full
digest with its first 4 bytes overwritten by the block number. -/
def Header.computeHash (F : List Nat → List Nat) (enc : headerContent → List Nat)
    (h : Header) : List Nat :=
  putUint32BE h.Number (fullDigest F enc h.content)

/-- `Header.Hash`: memoized block hash.  Returns the value together with
the receiver after its cache write (Go mutates `h.cache.hash` in place). -/
def Header.Hash (F : List Nat → List Nat) (enc : headerContent → List Nat)
    (h : Header) : List Nat × Header :=
  match h.cache.hash with
  | some c => (c, h)
  | none =>
      let v := h.computeHash F enc
      (v, { h with cache := { h.cache with hash := some v } })

/-- The representation invariant of the hash cache: an unexported field
only ever written by `Hash` itself, so it is either empty or holds the
computed value. -/
def hashCacheWF (F : List Nat → List Nat) (enc : headerContent → List Nat)
    (h : Header) : Prop :=
  ∀ c, h.cache.hash = some c → c = h.computeHash F enc

/-- The ordered field list hashed by `HashForSigning`: every content
field except `TotalScore` and `Signature`. -/
structure SigningFields where
  ParentHash : List Nat
  Timestamp : Nat
  GasLimit : Nat
  GasUsed : Nat
  Beneficiary : List Nat
  TxsRoot : List Nat
  StateRoot : List Nat
  ReceiptsRoot : List Nat
deriving DecidableEq

/-- Projection of a content onto the signing field list, in the order of
the `rlp.Encode` call inside `HashForSigning`. -/
def signingFields (c : headerContent) : SigningFields :=
  ⟨c.ParentHash, c.Timestamp, c.GasLimit, c.GasUsed, c.Beneficiary,
    c.TxsRoot, c.StateRoot, c.ReceiptsRoot⟩

/-- Modelled from the spec: `G` stands for the external composite
"canonically encode the field list, then hash" used by `HashForSigning`;
its codomain is abstract.  `Header.HashForSigning` applies it to the
signing subset of the content and never memoizes. -/
def Header.HashForSigning {α : Type} (G : SigningFields → α) (h : Header) : α :=
  G (signingFields h.content)

/-- `Header.WithSignature`: new header whose content copies the receiver
with `Signature` replaced (Go takes a defensive copy of the byte slice;
byte slices are immutable values here) and whose caches are empty.  The
receiver is passed by value and never returned modified. -/
def Header.WithSignature (h : Header) (sig : List Nat) : Header :=
  { content := { h.content with Signature := sig },
    cache := { hash := none, signer := none } }

/-- The two error shapes `Header.Signer` can surface: its own
`errors.New("not signed")`, or an error propagated from `dsa.Signer`
(distinct error values in Go). -/
inductive SignerError where
  | notSigned : SignerError
  | recovery : String → SignerError
deriving DecidableEq

/-- `Header.Signer`: fails when unsigned; otherwise returns the cached
signer if present, else recovers via the external adapter `recover`
(modelled from the spec: `dsa.Signer` over the signing hash and the
signature), memoizing only on success.  Returns the result together with
the receiver after any cache write. -/
def Header.Signer (G : SigningFields → List Nat)
    (recover : List Nat → List Nat → Except String (List Nat))
    (h : Header) : Except SignerError (List Nat) × Header :=
  if h.content.Signature = [] then (Except.error SignerError.notSigned, h)
  else
    match h.cache.signer with
    | some s => (Except.ok s, h)
    | none =>
        match recover (h.HashForSigning G) h.content.Signature with
        | Except.error e => (Except.error (SignerError.recovery e), h)
        | Except.ok s =>
            (Except.ok s, { h with cache := { h.cache with signer := some s } })

/-- `Header.EncodeRLP`: serializes only the content through the external
codec `enc` (modelled from the spec); the caches are never serialized. -/
def Header.EncodeRLP {β : Type} (enc : headerContent → β) (h : Header) : β :=
  enc h.content

/-- `Header.DecodeRLP`: decodes a content through the external codec
`dec` (modelled from the spec); on success the receiver is replaced by a
fresh header with empty caches, on failure the error propagates and the
receiver is untouched. -/
def Header.DecodeRLP {β : Type} (dec : β → Except String headerContent)
    (bs : β) (h : Header) : Except String Unit × Header :=
  match dec bs with
  | Except.error e => (Except.error e, h)
  | Except.ok c =>
      (Except.ok (), { content := c, cache := { hash := none, signer := none } })

/-- A header is signed when its signature is non-empty. -/
def Header.signed (h : Header) : Prop := h.content.Signature ≠ []

/-- Reachability via the only state-producing operation: zero or more
`WithSignature` applications, with arbitrary signature arguments. -/
inductive Reachable : Header → Header → Prop where
  | refl (h : Header) : Reachable h h
  | step (h1 h2 : Header) (sig : List Nat) :
      Reachable h1 h2 → Reachable h1 (h2.WithSignature sig)

/-- Reachability via `WithSignature` restricted to non-empty signature
arguments. -/
inductive ReachableSig : Header → Header → Prop where
  | refl (h : Header) : ReachableSig h h
  | step (h1 h2 : Header) (sig : List Nat) :
      sig ≠ [] → ReachableSig h1 h2 → ReachableSig h1 (h2.WithSignature sig)

/-- A fixed 32-byte digest, standing in for a hash output in concrete
instantiations. -/
def dig7 : List Nat := List.replicate 32 7

/-- A constant 32-byte hash function, a concrete instantiation of the
external digest parameter. -/
def F32 : List Nat → List Nat := fun _ => dig7

/-- A trivial concrete instantiation of the external canonical encoder. -/
def encTriv : headerContent → List Nat := fun _ => []

/-- A concrete genesis content: zero parent hash, zero scalars, zero
roots, empty signature. -/
def contGen : headerContent :=
  ⟨zero32, 0, 0, 0, 0, List.replicate 20 0, zero32, zero32, zero32, []⟩

/-- A concrete genesis header with empty caches. -/
def hGen : Header := ⟨contGen, ⟨none, none⟩⟩

/-- A concrete signed header with empty caches. -/
def hSig : Header := ⟨{ contGen with Signature := [1] }, ⟨none, none⟩⟩

/-- A concrete header at height 1: its parent hash is the genesis
header's hash under `F32`/`encTriv`. -/
def hW1 : Header :=
  ⟨{ contGen with ParentHash := (hGen.Hash F32 encTriv).1 }, ⟨none, none⟩⟩

/-- A concrete header at height 2: its parent hash is `hW1`'s hash. -/
def hW2 : Header :=
  ⟨{ contGen with ParentHash := (hW1.Hash F32 encTriv).1 }, ⟨none, none⟩⟩

/-- A concrete content differing from `contGen` only in its total score. -/
def hScore : Header := ⟨{ contGen with TotalScore := 5 }, ⟨none, none⟩⟩

/-- A concrete content differing from `contGen` only in its timestamp. -/
def hTime : Header := ⟨{ contGen with Timestamp := 1 }, ⟨none, none⟩⟩

/-- A concrete header whose parent hash starts with four 0xFF bytes. -/
def hMax : Header :=
  ⟨{ contGen with ParentHash := List.replicate 32 255 }, ⟨none, none⟩⟩

/-- A concrete recovery adapter that always succeeds with a fixed
20-byte address. -/
def recOk : List Nat → List Nat → Except String (List Nat) :=
  fun _ _ => Except.ok (List.replicate 20 9)

/-- A concrete signing-hash instantiation for `Signer`. -/
def G0 : SigningFields → List Nat := fun s => s.ParentHash

/-- A header's number always fits in 32 bits. -/
theorem headerNumber_lt (h : Header) : h.Number < 2 ^ 32 := by
  unfold Header.Number numberFromParent
  split
  · exact Nat.pos_pow_of_pos 32 (by decide)
  · exact Nat.mod_lt _ (by decide)

/-- Base-256 read-back: the big-endian 32-bit read of `beBytes32 n`
followed by any tail recovers `n` when `n` fits in 32 bits. -/
theorem beUint32_putUint32BE (n : Nat) (bs : List Nat) (hn : n < 2 ^ 32) :
    beUint32 (putUint32BE n bs) = n := by
  unfold putUint32BE beBytes32 beUint32 byteVal
  simp only [List.cons_append, List.nil_append]
  omega

/-- The first 4 bytes of the overwritten digest are exactly the
big-endian encoding of `n`. -/
theorem take4_putUint32BE (n : Nat) (bs : List Nat) :
    (putUint32BE n bs).take 4 = beBytes32 n := by
  unfold putUint32BE beBytes32
  rfl

/-- Under the cache invariant, the value returned by `Hash` is the
computed hash, whether it came from the cache or not. -/
theorem hash_val_of_wf (F : List Nat → List Nat) (enc : headerContent → List Nat)
    (h : Header) (hwf : hashCacheWF F enc h) :
    (h.Hash F enc).1 = h.computeHash F enc := by
  unfold Header.Hash
  cases hc : h.cache.hash with
  | none => simp
  | some c => simpa using hwf c hc

/-- C1: the first 4 bytes of `Hash()` equal the big-endian 32-bit
encoding of `Number()`, and the hash is the digest of the encoded full
content with its first 4 bytes overwritten by the number. -/
theorem C1_hash_embeds_number (F : List Nat → List Nat)
    (enc : headerContent → List Nat) (h : Header)
    (hwf : hashCacheWF F enc h) :
    (h.Hash F enc).1 = putUint32BE h.Number (fullDigest F enc h.content) ∧
    (h.Hash F enc).1.take 4 = beBytes32 h.Number := by
  have hv := hash_val_of_wf F enc h hwf
  constructor
  · exact hv
  · rw [hv]
    exact take4_putUint32BE _ _

/-- Closed instance of C1 at the concrete genesis header. -/
theorem C1_witness :
    hashCacheWF F32 encTriv hGen ∧
    ((hGen.Hash F32 encTriv).1 =
        putUint32BE hGen.Number (fullDigest F32 encTriv hGen.content) ∧
      (hGen.Hash F32 encTriv).1.take 4 = beBytes32 hGen.Number) := by
  have hwf : hashCacheWF F32 encTriv hGen := by
    intro c hc
    simp [hGen] at hc
  exact ⟨hwf, C1_hash_embeds_number F32 encTriv hGen hwf⟩

/-- A child whose parent hash is the parent's block hash has the
parent's number plus one, provided the hash is not the genesis sentinel
and the increment does not wrap. -/
theorem number_of_child (F : List Nat → List Nat)
    (enc : headerContent → List Nat) (p c : Header)
    (hwf : hashCacheWF F enc p)
    (hlink : c.content.ParentHash = (p.Hash F enc).1)
    (hnz : (p.Hash F enc).1 ≠ zero32)
    (hov : p.Number + 1 < 2 ^ 32) :
    c.Number = p.Number + 1 := by
  have hv := hash_val_of_wf F enc p hwf
  have hnz2 : c.content.ParentHash ≠ zero32 := by
    rw [hlink]
    exact hnz
  have hread : Number c.content.ParentHash = p.Number := by
    rw [hlink, hv]
    unfold Number Header.computeHash
    exact beUint32_putUint32BE _ _ (headerNumber_lt p)
  show numberFromParent c.content.ParentHash = p.Number + 1
  unfold numberFromParent
  rw [if_neg hnz2, hread, Nat.mod_eq_of_lt hov]

/-- C2: when a child's parent hash equals the parent's `Hash()`, the
child's number is the parent's number plus one; across three
generations the numbers advance by one at each link, read back from the
embedded bytes without walking the chain. -/
theorem C2_chain_consistency (F : List Nat → List Nat)
    (enc : headerContent → List Nat) (h0 h1 h2 : Header)
    (w0 : hashCacheWF F enc h0) (w1 : hashCacheWF F enc h1)
    (l1 : h1.content.ParentHash = (h0.Hash F enc).1)
    (l2 : h2.content.ParentHash = (h1.Hash F enc).1)
    (nz0 : (h0.Hash F enc).1 ≠ zero32)
    (nz1 : (h1.Hash F enc).1 ≠ zero32)
    (ov : h0.Number + 2 < 2 ^ 32) :
    h1.Number = h0.Number + 1 ∧ h2.Number = h0.Number + 2 := by
  have e1 := number_of_child F enc h0 h1 w0 l1 nz0 (by omega)
  have e2 := number_of_child F enc h1 h2 w1 l2 nz1 (by rw [e1]; omega)
  constructor
  · exact e1
  · rw [e2, e1]

/-- Closed instance of C2 on a concrete three-header chain. -/
theorem C2_witness :
    hW1.content.ParentHash = (hGen.Hash F32 encTriv).1 ∧
    hW2.content.ParentHash = (hW1.Hash F32 encTriv).1 ∧
    (hGen.Hash F32 encTriv).1 ≠ zero32 ∧
    (hW1.Hash F32 encTriv).1 ≠ zero32 ∧
    hGen.Number + 2 < 2 ^ 32 ∧
    hW1.Number = hGen.Number + 1 ∧ hW2.Number = hGen.Number + 2 := by
  have w0 : hashCacheWF F32 encTriv hGen := by
    intro c hc
    simp [hGen] at hc
  have w1 : hashCacheWF F32 encTriv hW1 := by
    intro c hc
    simp [hW1] at hc
  refine ⟨rfl, rfl, by decide, by decide, by decide, ?_⟩
  exact C2_chain_consistency F32 encTriv hGen hW1 hW2 w0 w1 rfl rfl
    (by decide) (by decide) (by decide)

/-- C3: contents differing only in total score, or only in signature,
give the same `HashForSigning()`; contents differing in timestamp give
different values whenever the external encode-then-hash composite is
injective on the signing field list (canonical codec, collision-free
digest). -/
theorem C3_signing_exclusion {α : Type} (G : SigningFields → α) :
    (∀ h1 h2 : Header,
        h1.content = { h2.content with TotalScore := h1.content.TotalScore } →
        h1.HashForSigning G = h2.HashForSigning G) ∧
    (∀ h1 h2 : Header,
        h1.content = { h2.content with Signature := h1.content.Signature } →
        h1.HashForSigning G = h2.HashForSigning G) ∧
    (Function.Injective G →
      ∀ h1 h2 : Header,
        h1.content = { h2.content with Timestamp := h1.content.Timestamp } →
        h1.content.Timestamp ≠ h2.content.Timestamp →
        h1.HashForSigning G ≠ h2.HashForSigning G) := by
  refine ⟨?_, ?_, ?_⟩
  · intro h1 h2 he
    unfold Header.HashForSigning signingFields
    rw [he]
  · intro h1 h2 he
    unfold Header.HashForSigning signingFields
    rw [he]
  · intro hinj h1 h2 he hne hcontra
    have hsf : signingFields h1.content = signingFields h2.content := hinj hcontra
    exact hne (congrArg SigningFields.Timestamp hsf)

/-- Closed instance of C3: identity as the injective composite, a
total-score-only difference collides, a timestamp-only difference does
not. -/
theorem C3_witness :
    hScore.HashForSigning (fun s : SigningFields => s) =
      hGen.HashForSigning (fun s : SigningFields => s) ∧
    hTime.HashForSigning (fun s : SigningFields => s) ≠
      hGen.HashForSigning (fun s : SigningFields => s) := by
  obtain ⟨p1, p2, p3⟩ := C3_signing_exclusion (fun s : SigningFields => s)
  refine ⟨p1 hScore hGen (by decide), ?_⟩
  exact p3 (fun a b hab => hab) hTime hGen (by decide) (by decide)

/-- C4: `WithSignature` returns a header whose content is the
receiver's content with only the signature replaced, and whose hash and
signer caches are unset; the receiver is taken by value and returned
nowhere, so it is untouched. -/
theorem C4_with_signature (h : Header) (sig : List Nat) :
    (h.WithSignature sig).content = { h.content with Signature := sig } ∧
    (h.WithSignature sig).content.Signature = sig ∧
    (h.WithSignature sig).cache.hash = none ∧
    (h.WithSignature sig).cache.signer = none :=
  ⟨rfl, rfl, rfl, rfl⟩

/-- C5: `Signer` fails with the not-signed error exactly on an empty
signature; with a non-empty signature it returns the memoized signer
when present, memoizes and returns the recovered signer on success, and
propagates a recovery error while caching nothing. -/
theorem C5_signer (G : SigningFields → List Nat)
    (recover : List Nat → List Nat → Except String (List Nat)) (h : Header) :
    ((h.Signer G recover).1 = Except.error SignerError.notSigned ↔
        h.content.Signature = []) ∧
    (∀ s, h.content.Signature ≠ [] → h.cache.signer = some s →
        h.Signer G recover = (Except.ok s, h)) ∧
    (∀ s, h.content.Signature ≠ [] → h.cache.signer = none →
        recover (h.HashForSigning G) h.content.Signature = Except.ok s →
        h.Signer G recover =
          (Except.ok s, { h with cache := { h.cache with signer := some s } })) ∧
    (∀ e, h.content.Signature ≠ [] → h.cache.signer = none →
        recover (h.HashForSigning G) h.content.Signature = Except.error e →
        h.Signer G recover = (Except.error (SignerError.recovery e), h)) := by
  refine ⟨⟨?_, ?_⟩, ?_, ?_, ?_⟩
  · intro hres
    by_contra hs
    unfold Header.Signer at hres
    rw [if_neg hs] at hres
    cases hc : h.cache.signer with
    | some s =>
        rw [hc] at hres
        simp at hres
    | none =>
        rw [hc] at hres
        cases hr : recover (h.HashForSigning G) h.content.Signature with
        | error e =>
            rw [hr] at hres
            simp at hres
        | ok s =>
            rw [hr] at hres
            simp at hres
  · intro hs
    unfold Header.Signer
    rw [if_pos hs]
  · intro s hs hc
    unfold Header.Signer
    rw [if_neg hs, hc]
  · intro s hs hc hr
    unfold Header.Signer
    rw [if_neg hs, hc, hr]
  · intro e hs hc hr
    unfold Header.Signer
    rw [if_neg hs, hc, hr]

/-- Closed instance of C5: the unsigned genesis header fails with the
not-signed error, and the signed header recovers and memoizes the
adapter's address. -/
theorem C5_witness :
    (hGen.Signer G0 recOk).1 = Except.error SignerError.notSigned ∧
    hSig.Signer G0 recOk =
      (Except.ok (List.replicate 20 9),
        { hSig with cache := { hSig.cache with signer := some (List.replicate 20 9) } }) := by
  obtain ⟨pA, -, -, -⟩ := C5_signer G0 recOk hGen
  obtain ⟨-, -, pC, -⟩ := C5_signer G0 recOk hSig
  exact ⟨pA.mpr rfl, pC (List.replicate 20 9) (by decide) rfl rfl⟩

/-- C6: decoding the encoding of any header against a round-tripping
codec succeeds and yields a header with the same content and empty
caches; only the content is ever serialized. -/
theorem C6_roundtrip {β : Type} (enc : headerContent → β)
    (dec : β → Except String headerContent)
    (hround : ∀ c, dec (enc c) = Except.ok c) (h h0 : Header) :
    Header.DecodeRLP dec (h.EncodeRLP enc) h0 =
      (Except.ok (),
        { content := h.content, cache := { hash := none, signer := none } }) := by
  unfold Header.DecodeRLP Header.EncodeRLP
  rw [hround]

/-- Closed instance of C6 with the identity codec on the signed header. -/
theorem C6_witness :
    (∀ c : headerContent, Except.ok c = (Except.ok c : Except String headerContent)) ∧
    Header.DecodeRLP (fun c => Except.ok c) (hSig.EncodeRLP (fun c => c)) hGen =
      (Except.ok (),
        { content := hSig.content, cache := { hash := none, signer := none } }) :=
  ⟨fun _ => rfl,
    C6_roundtrip (fun c => c) (fun c => Except.ok c) (fun _ => rfl) hSig hGen⟩

/-- C7: a header whose parent hash is all-zero has number 0 and its
block hash starts with the four bytes 0x00000000. -/
theorem C7_genesis (F : List Nat → List Nat)
    (enc : headerContent → List Nat) (h : Header)
    (hz : h.content.ParentHash = zero32)
    (hwf : hashCacheWF F enc h) :
    h.Number = 0 ∧ (h.Hash F enc).1.take 4 = [0, 0, 0, 0] := by
  have hn : h.Number = 0 := by
    unfold Header.Number numberFromParent
    rw [if_pos hz]
  refine ⟨hn, ?_⟩
  rw [hash_val_of_wf F enc h hwf]
  unfold Header.computeHash
  rw [take4_putUint32BE, hn]
  rfl

/-- Closed instance of C7 at the concrete genesis header. -/
theorem C7_witness :
    hGen.content.ParentHash = zero32 ∧
    hGen.Number = 0 ∧ (hGen.Hash F32 encTriv).1.take 4 = [0, 0, 0, 0] := by
  have hwf : hashCacheWF F32 encTriv hGen := by
    intro c hc
    simp [hGen] at hc
  exact ⟨rfl, C7_genesis F32 encTriv hGen rfl hwf⟩

/-- C8 fails as stated: `WithSignature` accepts an empty signature, so
a signed header reaches an unsigned one in a single step. -/
theorem C8_counterexample :
    ¬ (∀ h h2 : Header, h.signed → Reachable h h2 → h2.signed) := by
  intro hall
  have hs : hSig.signed := by
    unfold Header.signed
    decide
  have hr : Reachable hSig (hSig.WithSignature []) :=
    Reachable.step hSig hSig [] (Reachable.refl hSig)
  have hres := hall hSig (hSig.WithSignature []) hs hr
  unfold Header.signed at hres
  exact hres rfl

/-- C8 amended: along `WithSignature` steps whose signature argument is
non-empty, a signed header only ever reaches signed headers. -/
theorem C8_signed_preserved (h h2 : Header) (hs : h.signed)
    (hr : ReachableSig h h2) : h2.signed := by
  induction hr with
  | refl => exact hs
  | step hmid sig hne hrec ih =>
      unfold Header.signed Header.WithSignature
      simpa using hne

/-- Closed instance of the amended C8: one non-empty signing step from
the concrete signed header. -/
theorem C8_witness : Header.signed (hSig.WithSignature [2]) := by
  have hs : hSig.signed := by
    unfold Header.signed
    decide
  exact C8_signed_preserved hSig (hSig.WithSignature [2]) hs
    (ReachableSig.step hSig hSig [2] (by decide) (ReachableSig.refl hSig))

/-- C9: when the codec rejects the input, `DecodeRLP` propagates the
error and returns the receiver unchanged; no partial header is built. -/
theorem C9_decode_all_or_nothing {β : Type}
    (dec : β → Except String headerContent) (bs : β) (h : Header)
    (e : String) (herr : dec bs = Except.error e) :
    Header.DecodeRLP dec bs h = (Except.error e, h) := by
  unfold Header.DecodeRLP
  rw [herr]

/-- Closed instance of C9 with an always-failing codec. -/
theorem C9_witness :
    Header.DecodeRLP (fun _ : List Nat => Except.error "truncated") [0] hSig =
      (Except.error "truncated", hSig) :=
  C9_decode_all_or_nothing (fun _ => Except.error "truncated") [0] hSig
    "truncated" rfl

/-- C10: a parent hash whose first 4 bytes are 0xFFFFFFFF makes the
unchecked 32-bit increment wrap, so the number is 0. -/
theorem C10_number_wraps (h : Header)
    (hff : h.content.ParentHash.take 4 = [255, 255, 255, 255]) :
    h.Number = 0 := by
  have hnz : h.content.ParentHash ≠ zero32 := by
    intro hz
    rw [hz] at hff
    simp [zero32] at hff
  have hsplit : h.content.ParentHash =
      255 :: 255 :: 255 :: 255 :: h.content.ParentHash.drop 4 := by
    conv_lhs => rw [← List.take_append_drop 4 h.content.ParentHash]
    rw [hff]
    rfl
  unfold Header.Number numberFromParent
  rw [if_neg hnz, hsplit]
  unfold Number beUint32 byteVal
  norm_num

/-- Closed instance of C10 at an all-0xFF parent hash. -/
theorem C10_witness :
    hMax.content.ParentHash.take 4 = [255, 255, 255, 255] ∧ hMax.Number = 0 :=
  ⟨by decide, C10_number_wraps hMax (by decide)⟩
